import Mathlib

/-!
Verification of the `ape` caching subsystem (`src/ape/cache/backends.py`,
`src/ape/cache/manager.py`, `src/ape/cache/specialized.py`).

The Python code is shallowly embedded:
* Python runtime values that flow through the cache are modelled by `PyVal`
  (`None`, `bool`, `int`, `str`, `bytes`, `list`, `tuple`, string-keyed
  `dict`, and a function object `pyLambda` standing for a value neither
  JSON- nor pickle-serializable).
* `json.dumps`/`json.loads` are modelled semantically: `jsonEncode` maps a
  value to its JSON document (`Json`) when `json.dumps` accepts it, and
  `jsonDecode` maps the document back to the Python value `json.loads`
  produces (arrays become lists, so tuple identity is lost).
* `pickle.dumps`/`pickle.loads` succeed exactly on values without function
  objects (`pickleOk`) and are the identity on those values.
* `time.time()` is passed explicitly as a `now : Nat` argument.
* The `OrderedDict` backing `MemoryCache` is a list of entries in
  least-recently-used-first order; the SQLite table backing `DiskCache` is a
  list of rows (queries that `ORDER BY created_at` sort the list).
-/

set_option autoImplicit false

/-- Python values that flow through the cache, as used by the repository.
`pyLambda` models a function object: `json.dumps` and `pickle.dumps` both
reject it. `pyBytes` models a `bytes` object: rejected by `json.dumps`,
accepted by `pickle`. Dict keys are restricted to strings, matching every
dict the repository caches (JSON object keys are strings). -/
inductive PyVal where
  | pyNone : PyVal
  | pyBool (b : Bool) : PyVal
  | pyInt (n : Int) : PyVal
  | pyStr (s : String) : PyVal
  | pyBytes (bs : List Nat) : PyVal
  | pyList (xs : List PyVal) : PyVal
  | pyTuple (xs : List PyVal) : PyVal
  | pyDict (kvs : List (String × PyVal)) : PyVal
  | pyLambda : PyVal

open PyVal

/-- JSON documents, the image of `json.dumps` (floats are not produced by any
value the repository caches, so numbers are integers here). -/
inductive Json where
  | jnull : Json
  | jbool (b : Bool) : Json
  | jint (n : Int) : Json
  | jstr (s : String) : Json
  | jarr (xs : List Json) : Json
  | jobj (kvs : List (String × Json)) : Json

mutual

/-- Semantic model of `json.dumps`: `some` of the encoded document when the
value is JSON-serializable, `none` when `json.dumps` raises. Tuples are
encoded as JSON arrays, exactly as CPython's encoder does. -/
def jsonEncode : PyVal → Option Json
  | .pyNone => some .jnull
  | .pyBool b => some (.jbool b)
  | .pyInt n => some (.jint n)
  | .pyStr s => some (.jstr s)
  | .pyBytes _ => none
  | .pyLambda => none
  | .pyList xs => (jsonEncodeList xs).map .jarr
  | .pyTuple xs => (jsonEncodeList xs).map .jarr
  | .pyDict kvs => (jsonEncodeKVs kvs).map .jobj

def jsonEncodeList : List PyVal → Option (List Json)
  | [] => some []
  | x :: xs =>
    match jsonEncode x, jsonEncodeList xs with
    | some j, some js => some (j :: js)
    | _, _ => none

def jsonEncodeKVs : List (String × PyVal) → Option (List (String × Json))
  | [] => some []
  | (k, v) :: kvs =>
    match jsonEncode v, jsonEncodeKVs kvs with
    | some j, some js => some ((k, j) :: js)
    | _, _ => none

end

mutual

/-- Semantic model of `json.loads` applied to an encoded document: arrays
come back as Python lists, objects as string-keyed dicts. -/
def jsonDecode : Json → PyVal
  | .jnull => .pyNone
  | .jbool b => .pyBool b
  | .jint n => .pyInt n
  | .jstr s => .pyStr s
  | .jarr xs => .pyList (jsonDecodeList xs)
  | .jobj kvs => .pyDict (jsonDecodeKVs kvs)

def jsonDecodeList : List Json → List PyVal
  | [] => []
  | x :: xs => jsonDecode x :: jsonDecodeList xs

def jsonDecodeKVs : List (String × Json) → List (String × PyVal)
  | [] => []
  | (k, v) :: kvs => (k, jsonDecode v) :: jsonDecodeKVs kvs

end

mutual

/-- Whether `pickle.dumps` succeeds on the value: everything except function
objects (and containers holding one) pickles, and `pickle.loads` restores it
identically. -/
def pickleOk : PyVal → Bool
  | .pyNone => true
  | .pyBool _ => true
  | .pyInt _ => true
  | .pyStr _ => true
  | .pyBytes _ => true
  | .pyLambda => false
  | .pyList xs => pickleOkList xs
  | .pyTuple xs => pickleOkList xs
  | .pyDict kvs => pickleOkKVs kvs

def pickleOkList : List PyVal → Bool
  | [] => true
  | x :: xs => pickleOk x && pickleOkList xs

def pickleOkKVs : List (String × PyVal) → Bool
  | [] => true
  | (_, v) :: kvs => pickleOk v && pickleOkKVs kvs

end

/-- `value is None` (the check used by `get_or_set`, `incr` and the manager's
`get`: an absent key and a stored `None` are indistinguishable here). -/
def PyVal.isNone : PyVal → Bool
  | .pyNone => true
  | _ => false

/-- `isinstance(value, int)` — in Python `bool` is a subclass of `int`. -/
def PyVal.isInstInt : PyVal → Bool
  | .pyInt _ => true
  | .pyBool _ => true
  | _ => false

/-- Numeric value of an `isinstance(value, int)` value (`True == 1`). -/
def PyVal.toIntVal : PyVal → Int
  | .pyInt n => n
  | .pyBool true => 1
  | _ => 0

/-- `is_json_serializable` from `backends.py`: whether `json.dumps(value)`
succeeds. -/
def is_json_serializable (v : PyVal) : Bool :=
  (jsonEncode v).isSome

/-- Errors surfaced by the cache layer: `CacheError` (serialization) and
`ValueError` (`incr` on a non-integer). -/
inductive PyErr where
  | cacheError : PyErr
  | valueError : PyErr
  deriving DecidableEq

/-! ## MemoryCache (`backends.py`, `MemoryCache`)

The backing `OrderedDict` is a list of `(key, value, expires_at)` entries in
least-recently-used-first order: `popitem(last=False)` pops the head,
`move_to_end` moves an entry to the tail. -/

/-- One `OrderedDict` entry: key, stored value, optional absolute expiry. -/
abbrev MemEntry : Type := String × PyVal × Option Nat

/-- `expires_at is not None and time.time() > expires_at`. -/
def isExpired (expiresAt : Option Nat) (now : Nat) : Bool :=
  match expiresAt with
  | some t => decide (t < now)
  | none => false

/-- State of a `MemoryCache(max_size)`: the bound and the ordered entries. -/
structure MemCache where
  maxSize : Nat
  data : List MemEntry

/-- `MemoryCache(max_size)` — a fresh, empty cache. -/
def MemCache.mk0 (maxSize : Nat) : MemCache :=
  ⟨maxSize, []⟩

namespace MemoryCache

/-- Key lookup in the ordered dict (keys are unique in every reachable
state, so the first match is the binding). -/
def findEntry (c : MemCache) (k : String) : Option MemEntry :=
  c.data.find? (fun e => e.1 == k)

/-- Remove the binding of `k`, keeping order (`pop`, or dict deletion). -/
def eraseKey (l : List MemEntry) (k : String) : List MemEntry :=
  l.filter (fun e => !(e.1 == k))

/-- `self._cache.pop(key, None)` — `MemoryCache.delete`. -/
def delete (c : MemCache) (k : String) : MemCache :=
  { c with data := eraseKey c.data k }

/-- `self._cache.move_to_end(key)`. -/
def moveToEnd (c : MemCache) (k : String) : MemCache :=
  match findEntry c k with
  | none => c
  | some e => { c with data := eraseKey c.data k ++ [e] }

/-- The eviction loop of `MemoryCache.set`, with explicit fuel so that it is
structurally recursive (each iteration pops one entry, so `l.length` steps
always suffice). -/
def evictLoop : Nat → List MemEntry → Nat → List MemEntry
  | 0, l, _ => l
  | fuel + 1, l, maxSize =>
    if l.length > maxSize then evictLoop fuel l.tail maxSize else l

/-- `while len(self._cache) > self.max_size: self._cache.popitem(last=False)`
— the eviction loop at the end of `MemoryCache.set`. -/
def evictOldest (l : List MemEntry) (maxSize : Nat) : List MemEntry :=
  evictLoop l.length l maxSize

/-- `MemoryCache.get`: absent → `None`; expired → delete and `None`;
otherwise move to most-recently-used end and return the value. The Python
`None` result is `pyNone` (indistinguishable from a stored `None`). -/
def get (c : MemCache) (k : String) (now : Nat) : PyVal × MemCache :=
  match findEntry c k with
  | none => (.pyNone, c)
  | some e =>
    if isExpired e.2.2 now then (.pyNone, delete c k)
    else (e.2.1, moveToEnd c k)

/-- `MemoryCache.set`: store `(value, now+ttl or None)`, move to the
most-recently-used end, then evict from the least-recently-used end while
over `max_size`. Assignment plus `move_to_end` is remove-then-append. -/
def set (c : MemCache) (k : String) (v : PyVal) (ttl : Option Nat) (now : Nat) :
    MemCache :=
  let expiresAt := ttl.map (fun t => now + t)
  { c with data := evictOldest (eraseKey c.data k ++ [(k, v, expiresAt)]) c.maxSize }

/-- `MemoryCache.clear`. -/
def clear (c : MemCache) : MemCache :=
  { c with data := [] }

/-- `MemoryCache.exists`: same lazy-expiry check as `get`, but without the
`move_to_end` recency promotion. -/
def existsKey (c : MemCache) (k : String) (now : Nat) : Bool × MemCache :=
  match findEntry c k with
  | none => (false, c)
  | some e =>
    if isExpired e.2.2 now then (false, delete c k)
    else (true, c)

end MemoryCache

/-! ## Backend contract and derived operations (`BaseCacheBackend`)

The derived operations (`get_or_set`, `incr`, `decr`) are written once over
the five primitives; `σ` is the backend's state type. `get` returns the
Python value (`pyNone` for a miss) and the possibly mutated state. -/

/-- A cache backend: the primitive operations of `BaseCacheBackend`,
threaded through an explicit state. -/
structure Backend (σ : Type) where
  get : σ → String → Nat → PyVal × σ
  set : σ → String → PyVal → Option Nat → Nat → σ
  delete : σ → String → σ
  existsKey : σ → String → Nat → Bool × σ
  clear : σ → σ

/-- The `MemoryCache` backend. -/
def memBackend : Backend MemCache :=
  ⟨MemoryCache.get, MemoryCache.set, MemoryCache.delete,
   MemoryCache.existsKey, MemoryCache.clear⟩

/-- The `NullCache` backend: every read is absent, every write a no-op. -/
def nullBackend : Backend Unit :=
  ⟨fun s _ _ => (.pyNone, s), fun s _ _ _ _ => s, fun s _ => s,
   fun s _ _ => (false, s), fun s => s⟩

/-- `BaseCacheBackend.get_or_set`: `get`, and when the result `is None`,
invoke the factory, `set` its result, and return it. The `Bool` records
whether the factory was invoked (the Python code calls it at most once). -/
def get_or_set {σ : Type} (b : Backend σ) (st : σ) (k : String)
    (factory : Unit → PyVal) (ttl : Option Nat) (now : Nat) :
    PyVal × σ × Bool :=
  let r := b.get st k now
  if r.1.isNone then
    let v := factory ()
    (v, b.set r.2 k v ttl now, true)
  else
    (r.1, r.2, false)

/-- `BaseCacheBackend.incr`: a missing value counts as `0`; a stored value
failing `isinstance(value, int)` raises `ValueError`; otherwise the sum is
stored with `set(key, new_value)` — note: with no TTL — and returned. -/
def incr {σ : Type} (b : Backend σ) (st : σ) (k : String) (delta : Int)
    (now : Nat) : Except PyErr (Int × σ) :=
  let r := b.get st k now
  if r.1.isNone then
    let newValue : Int := 0 + delta
    .ok (newValue, b.set r.2 k (.pyInt newValue) none now)
  else if r.1.isInstInt then
    let newValue : Int := r.1.toIntVal + delta
    .ok (newValue, b.set r.2 k (.pyInt newValue) none now)
  else
    .error .valueError

/-- `BaseCacheBackend.decr`: literally `self.incr(key, -delta)`. -/
def decr {σ : Type} (b : Backend σ) (st : σ) (k : String) (delta : Int)
    (now : Nat) : Except PyErr (Int × σ) :=
  incr b st k (-delta) now

/-! ## DiskCache (`backends.py`, `DiskCache`)

The SQLite table `cache(key PRIMARY KEY, value, expires_at, created_at,
size)` is a list of rows; `SELECT ... ORDER BY created_at ASC` sorts it.
Byte strings are modelled by `Stored`: a JSON document, a pickled value, or
corrupted bytes that neither codec accepts. The decode-failure fallthrough
of `_deserialize` is exact because pickled bytes (protocol ≥ 2, leading byte
`0x80`) are never valid UTF-8 JSON. The byte length recorded in the `size`
column is abstracted to a structural size (`storedSize`). -/

/-- Contents of the `value BLOB` column. -/
inductive Stored where
  | jsonBytes (j : Json) : Stored
  | pickleBytes (v : PyVal) : Stored
  | corrupt : Stored

mutual

/-- Structural stand-in for the byte length of an encoded JSON document. -/
def jsonSize : Json → Nat
  | .jnull => 4
  | .jbool _ => 4
  | .jint _ => 4
  | .jstr s => s.length + 2
  | .jarr xs => jsonSizeList xs + 2
  | .jobj kvs => jsonSizeKVs kvs + 2

def jsonSizeList : List Json → Nat
  | [] => 0
  | x :: xs => jsonSize x + jsonSizeList xs + 1

def jsonSizeKVs : List (String × Json) → Nat
  | [] => 0
  | (k, v) :: kvs => k.length + jsonSize v + jsonSizeKVs kvs + 4

end

/-- Structural stand-in for `len(data)` of the stored bytes. -/
def storedSize : Stored → Nat
  | .jsonBytes j => jsonSize j
  | .pickleBytes _ => 64
  | .corrupt => 1

/-- `DiskCache._serialize`: JSON if `is_json_serializable`, else pickle;
`CacheError` when both fail. Returns the bytes and `len(data)`. -/
def diskSerialize (v : PyVal) : Except PyErr (Stored × Nat) :=
  if is_json_serializable v then
    match jsonEncode v with
    | some j => .ok (.jsonBytes j, storedSize (.jsonBytes j))
    | none => .error .cacheError
  else if pickleOk v then
    .ok (.pickleBytes v, storedSize (.pickleBytes v))
  else
    .error .cacheError

/-- `DiskCache._deserialize`: try JSON first; on a decode failure fall back
to pickle; raise `CacheError` when both fail. -/
def diskDeserialize : Stored → Except PyErr PyVal
  | .jsonBytes j => .ok (jsonDecode j)
  | .pickleBytes v => .ok v
  | .corrupt => .error .cacheError

/-- One row of the `cache` table. -/
structure Row where
  key : String
  value : Stored
  expires_at : Option Nat
  created_at : Nat
  size : Nat

/-- State of a `DiskCache(namespace, max_size)`. -/
structure DiskState where
  maxSize : Nat
  table : List Row

/-- A fresh, empty disk cache with the given byte budget. -/
def DiskState.mk0 (maxSize : Nat) : DiskState :=
  ⟨maxSize, []⟩

namespace DiskCache

/-- `SELECT SUM(size) FROM cache` (with `NULL` coalesced to `0`). -/
def sumSizes (table : List Row) : Nat :=
  (table.map Row.size).sum

/-- `expires_at IS NOT NULL AND expires_at < now` — the expired-row filter
used both by the eviction pass and (as `time.time() > expires_at`) by
`get`/`exists`. -/
def rowExpired (r : Row) (now : Nat) : Bool :=
  isExpired r.expires_at now

/-- `DELETE FROM cache WHERE key = ?`. -/
def eraseRow (table : List Row) (k : String) : List Row :=
  table.filter (fun r => !(r.key == k))

/-- `SELECT key, size FROM cache ORDER BY created_at ASC`. -/
def sortByCreated (table : List Row) : List Row :=
  table.insertionSort (fun a b => a.created_at ≤ b.created_at)

/-- The accumulation loop of `_enforce_size_limit` step (c): walk the rows
oldest-first, collect keys and sizes, and stop as soon as the projected
remaining size `current_size - deleted_size` is at or below the budget. -/
def collectDel (rows : List Row) (currentSize maxSize deletedSize : Nat) :
    List String :=
  match rows with
  | [] => []
  | r :: rest =>
    r.key ::
      (if currentSize - (deletedSize + r.size) ≤ maxSize then []
       else collectDel rest currentSize maxSize (deletedSize + r.size))

/-- `DiskCache._enforce_size_limit`: (a) stop if the summed size is within
budget; (b) delete expired rows and stop if now within budget; (c) delete a
batch of oldest-created rows until the projected size is within budget. -/
def enforceSizeLimit (table : List Row) (now maxSize : Nat) : List Row :=
  let currentSize := sumSizes table
  if currentSize ≤ maxSize then table
  else
    let t1 := table.filter (fun r => !(rowExpired r now))
    let currentSize1 := sumSizes t1
    if currentSize1 ≤ maxSize then t1
    else
      let dels := collectDel (sortByCreated t1) currentSize1 maxSize 0
      t1.filter (fun r => !(dels.contains r.key))

/-- `DiskCache.set`: serialize (a `CacheError` is logged as a warning and the
operation abandoned — the `Bool` records that a warning was emitted), then
`INSERT OR REPLACE` and enforce the size limit. -/
def set (st : DiskState) (k : String) (v : PyVal) (ttl : Option Nat)
    (now : Nat) : DiskState × Bool :=
  match diskSerialize v with
  | .error _ => (st, true)
  | .ok (data, size) =>
    let expiresAt := ttl.map (fun t => now + t)
    let row : Row := ⟨k, data, expiresAt, now, size⟩
    ({ st with table := enforceSizeLimit (eraseRow st.table k ++ [row]) now st.maxSize },
     false)

/-- `DiskCache.get`: absent → `None`; expired → delete the row and `None`;
otherwise deserialize (which may raise `CacheError`). -/
def get (st : DiskState) (k : String) (now : Nat) :
    Except PyErr (PyVal × DiskState) :=
  match st.table.find? (fun r => r.key == k) with
  | none => .ok (.pyNone, st)
  | some r =>
    if rowExpired r now then
      .ok (.pyNone, { st with table := eraseRow st.table k })
    else
      (diskDeserialize r.value).map (fun v => (v, st))

/-- `DiskCache.delete`. -/
def delete (st : DiskState) (k : String) : DiskState :=
  { st with table := eraseRow st.table k }

/-- `DiskCache.exists`: same expiry discipline as `get`, no deserialization. -/
def existsKey (st : DiskState) (k : String) (now : Nat) : Bool × DiskState :=
  match st.table.find? (fun r => r.key == k) with
  | none => (false, st)
  | some r =>
    if rowExpired r now then
      (false, { st with table := eraseRow st.table k })
    else
      (true, st)

end DiskCache

/-! ## CacheManager (`manager.py`)

`_backends` maps `f"{backend_type}:{hash(frozenset(kwargs.items()))}"` to a
backend instance. The CPython hash of the empty kwargs set is opaque; the
manager model carries it as a field `h : Int`, and every statement below is
universally quantified over it. Metrics counters are keyed by the backend's
`name` property. Only the flows exercised by the claims are modelled: the
lazily created default memory backend, and operations on an explicitly
passed `MemoryCache` instance (`_get_backend_instance` returns a passed
instance unchanged). -/

/-- Metric counter dictionaries (`backend name → count`), in insertion
order. -/
abbrev CounterMap : Type := List (String × Nat)

/-- `CacheManager._increment_metric` on one counter dictionary: initialize
the slot to `0` when absent, then add one. -/
def bumpCounter (m : CounterMap) (name : String) : CounterMap :=
  if m.any (fun p => p.1 == name) then
    m.map (fun p => if p.1 == name then (p.1, p.2 + 1) else p)
  else
    m ++ [(name, 1)]

/-- `metrics[kind].get(name, 0)`. -/
def lookupCount (m : CounterMap) (name : String) : Nat :=
  ((m.find? (fun p => p.1 == name)).map (fun p => p.2)).getD 0

/-- State of a `CacheManager`: the registry key hash for the no-kwargs
default backend, the keys of `_backends` in insertion order, the default
memory backend's state, the four counter dictionaries, and the construction
time. -/
structure Manager where
  h : Int
  backendKeys : List String
  mem : MemCache
  hits : CounterMap
  misses : CounterMap
  sets : CounterMap
  deletes : CounterMap
  startTime : Nat

/-- `CacheManager()` constructed at `startTime`; the default backend is a
`MemoryCache()` with the default bound of 1000 entries (instantiated on
first use, which only affects when its registry key is recorded). -/
def Manager.mk0 (h : Int) (startTime : Nat) : Manager :=
  ⟨h, [], MemCache.mk0 1000, [], [], [], [], startTime⟩

namespace CacheManager

/-- The `_backends` key `get_backend("memory")` computes for the default
backend: `f"memory:{hash(frozenset({}.items()))}"`. -/
def registryKey (m : Manager) : String :=
  "memory:" ++ toString m.h

/-- Resolution of the default backend: on first use `get_backend("memory")`
records the instance under its registry key. -/
def touchDefault (m : Manager) : Manager :=
  if registryKey m ∈ m.backendKeys then m
  else { m with backendKeys := m.backendKeys ++ [registryKey m] }

/-- `CacheManager.get` on the default backend: perform the backend `get`,
then count a hit or a miss under the backend's `name` (`"memory"`). -/
def get (m : Manager) (k : String) (now : Nat) : PyVal × Manager :=
  let m1 := touchDefault m
  let r := MemoryCache.get m1.mem k now
  if r.1.isNone then
    (r.1, { m1 with mem := r.2, misses := bumpCounter m1.misses "memory" })
  else
    (r.1, { m1 with mem := r.2, hits := bumpCounter m1.hits "memory" })

/-- `CacheManager.set` on the default backend. -/
def set (m : Manager) (k : String) (v : PyVal) (ttl : Option Nat) (now : Nat) :
    Manager :=
  let m1 := touchDefault m
  { m1 with mem := MemoryCache.set m1.mem k v ttl now,
            sets := bumpCounter m1.sets "memory" }

/-- `CacheManager.delete` on the default backend. -/
def delete (m : Manager) (k : String) : Manager :=
  let m1 := touchDefault m
  { m1 with mem := MemoryCache.delete m1.mem k,
            deletes := bumpCounter m1.deletes "memory" }

/-- `CacheManager.exists` on the default backend (no metric is recorded). -/
def existsKey (m : Manager) (k : String) (now : Nat) : Bool × Manager :=
  let m1 := touchDefault m
  let r := MemoryCache.existsKey m1.mem k now
  (r.1, { m1 with mem := r.2 })

/-- `CacheManager.get_or_set` on the default backend: a miss counts
`misses` then `sets`; a hit counts `hits`. -/
def get_or_set (m : Manager) (k : String) (factory : Unit → PyVal)
    (ttl : Option Nat) (now : Nat) : PyVal × Manager × Bool :=
  let m1 := touchDefault m
  let r := MemoryCache.get m1.mem k now
  if r.1.isNone then
    let v := factory ()
    (v, { m1 with mem := MemoryCache.set r.2 k v ttl now,
                  misses := bumpCounter m1.misses "memory",
                  sets := bumpCounter m1.sets "memory" }, true)
  else
    (r.1, { m1 with mem := r.2, hits := bumpCounter m1.hits "memory" }, false)

/-- The snapshot returned by `CacheManager.get_metrics`. -/
structure Metrics where
  hits : CounterMap
  misses : CounterMap
  sets : CounterMap
  deletes : CounterMap
  hitRates : List (String × Rat)
  uptime : Nat

/-- `CacheManager.get_metrics`: copies of the four counter dictionaries,
plus hit rates computed per element of `self._backends` — the iteration
variable is the *registry key* of `_backends`, not a backend name — and the
uptime. -/
def get_metrics (m : Manager) (now : Nat) : Metrics :=
  let hitRates := m.backendKeys.map (fun backend =>
    let hits := lookupCount m.hits backend
    let misses := lookupCount m.misses backend
    let total := hits + misses
    (backend, if total > 0 then (hits : Rat) / (total : Rat) else 0))
  ⟨m.hits, m.misses, m.sets, m.deletes, hitRates, now - m.startTime⟩

/-! Operations on an explicitly passed `MemoryCache` backend instance:
`_get_backend_instance` returns the instance, `_get_backend_name` its
`name` property (`"memory"`), and `_backends` is not consulted. -/

/-- `CacheManager.get` with `backend=` a `MemoryCache` instance. -/
def getOn (m : Manager) (bc : MemCache) (k : String) (now : Nat) :
    PyVal × Manager × MemCache :=
  let r := MemoryCache.get bc k now
  if r.1.isNone then
    (r.1, { m with misses := bumpCounter m.misses "memory" }, r.2)
  else
    (r.1, { m with hits := bumpCounter m.hits "memory" }, r.2)

/-- `CacheManager.set` with `backend=` a `MemoryCache` instance. -/
def setOn (m : Manager) (bc : MemCache) (k : String) (v : PyVal)
    (ttl : Option Nat) (now : Nat) : Manager × MemCache :=
  ({ m with sets := bumpCounter m.sets "memory" },
   MemoryCache.set bc k v ttl now)

/-- `CacheManager.delete` with `backend=` a `MemoryCache` instance. -/
def deleteOn (m : Manager) (bc : MemCache) (k : String) : Manager × MemCache :=
  ({ m with deletes := bumpCounter m.deletes "memory" },
   MemoryCache.delete bc k)

/-- `CacheManager.exists` with `backend=` a `MemoryCache` instance. -/
def existsOn (m : Manager) (bc : MemCache) (k : String) (now : Nat) :
    Bool × Manager × MemCache :=
  let r := MemoryCache.existsKey bc k now
  (r.1, m, r.2)

end CacheManager

/-! ## SpecializedCache (`specialized.py`)

A namespaced façade: every key is rewritten to
`f"{namespace}:{':'.join(str(p) for p in parts)}"` before delegating to the
manager. The single-part form used by `get`/`set`/`delete`/`exists` joins a
one-element list. -/

namespace SpecializedCache

/-- `SpecializedCache._get_key`. -/
def getKey (namespc : String) (parts : List String) : String :=
  namespc ++ ":" ++ String.intercalate ":" parts

/-- `SpecializedCache.get` with an explicit `MemoryCache` backend. -/
def getOn (namespc : String) (m : Manager) (bc : MemCache) (k : String)
    (now : Nat) : PyVal × Manager × MemCache :=
  CacheManager.getOn m bc (getKey namespc [k]) now

/-- `SpecializedCache.set` with an explicit `MemoryCache` backend. -/
def setOn (namespc : String) (m : Manager) (bc : MemCache) (k : String)
    (v : PyVal) (ttl : Option Nat) (now : Nat) : Manager × MemCache :=
  CacheManager.setOn m bc (getKey namespc [k]) v ttl now

/-- `SpecializedCache.delete` with an explicit `MemoryCache` backend. -/
def deleteOn (namespc : String) (m : Manager) (bc : MemCache) (k : String) :
    Manager × MemCache :=
  CacheManager.deleteOn m bc (getKey namespc [k])

/-- `SpecializedCache.exists` with an explicit `MemoryCache` backend. -/
def existsOn (namespc : String) (m : Manager) (bc : MemCache) (k : String)
    (now : Nat) : Bool × Manager × MemCache :=
  CacheManager.existsOn m bc (getKey namespc [k]) now

end SpecializedCache

/-! ## Claims -/

/-- Claim C10: a stored `None` is observably identical to absence on the read
path: after `set(k, None)` on a `MemoryCache`, `get(k)` returns `None`, the
manager counts that read as a miss, and `get_or_set(k, f)` invokes the
factory on every call (re-storing the entry each time) — yet `exists(k)`
reports `True` for the same unexpired entry. -/
theorem stored_none_reads_as_miss :
    (MemoryCache.get (MemoryCache.set (MemCache.mk0 1000) "k" .pyNone none 0) "k" 0).1
      = .pyNone
    ∧ MemoryCache.existsKey (MemoryCache.set (MemCache.mk0 1000) "k" .pyNone none 0) "k" 0
      = (true, MemoryCache.set (MemCache.mk0 1000) "k" .pyNone none 0)
    ∧ (∀ f : Unit → PyVal,
        (get_or_set memBackend (MemoryCache.set (MemCache.mk0 1000) "k" .pyNone none 0)
          "k" f none 0).2.2 = true)
    ∧ (get_or_set memBackend
        ((get_or_set memBackend (MemoryCache.set (MemCache.mk0 1000) "k" .pyNone none 0)
          "k" (fun _ => .pyNone) none 0).2.1)
        "k" (fun _ => .pyNone) none 0).2.2 = true
    ∧ lookupCount
        (CacheManager.get (CacheManager.set (Manager.mk0 0 0) "k" .pyNone none 0) "k" 0).2.misses
        "memory" = 1
    ∧ lookupCount
        (CacheManager.get (CacheManager.set (Manager.mk0 0 0) "k" .pyNone none 0) "k" 0).2.hits
        "memory" = 0 := by
  refine ⟨rfl, rfl, fun f => rfl, rfl, rfl, rfl⟩

/-- Claim C4, counterexample: a tuple is accepted by the JSON codec
(`json.dumps((1,)) == "[1]"`), but reading it back yields the *list*
`[1]`, which does not compare equal to the original tuple. -/
theorem disk_roundtrip_tuple_cex :
    DiskCache.get
      ((DiskCache.set (DiskState.mk0 1000000) "k" (.pyTuple [.pyInt 1]) none 0).1) "k" 0
      = .ok (.pyList [.pyInt 1],
             (DiskCache.set (DiskState.mk0 1000000) "k" (.pyTuple [.pyInt 1]) none 0).1)
    ∧ is_json_serializable (.pyTuple [.pyInt 1]) = true
    ∧ PyVal.pyList [.pyInt 1] ≠ PyVal.pyTuple [.pyInt 1] := by
  refine ⟨rfl, rfl, fun h => ?_⟩
  cases h

/-- Claim C5, counterexample: when the key already held a value, a `set`
whose value fails both codecs abandons the operation — and therefore the
cache still *does* contain the key afterwards, with the old value. -/
theorem disk_set_unencodable_preexisting_cex :
    DiskCache.set ((DiskCache.set (DiskState.mk0 1000000) "k" (.pyStr "old") none 0).1)
        "k" .pyLambda none 5
      = ((DiskCache.set (DiskState.mk0 1000000) "k" (.pyStr "old") none 0).1, true)
    ∧ (DiskCache.existsKey
        ((DiskCache.set ((DiskCache.set (DiskState.mk0 1000000) "k" (.pyStr "old") none 0).1)
          "k" .pyLambda none 5).1) "k" 5).1 = true
    ∧ DiskCache.get
        ((DiskCache.set ((DiskCache.set (DiskState.mk0 1000000) "k" (.pyStr "old") none 0).1)
          "k" .pyLambda none 5).1) "k" 5
      = .ok (.pyStr "old",
             (DiskCache.set (DiskState.mk0 1000000) "k" (.pyStr "old") none 0).1) := by
  exact ⟨rfl, rfl, rfl⟩

/-- Claim C6, counterexample: on the `NullCache` backend, `get_or_set` on an
absent key does not store the result, so a second call with a different
factory invokes that factory and returns *its* value, not the first one. -/
theorem get_or_set_null_second_factory_cex :
    get_or_set nullBackend () "k" (fun _ => .pyStr "a") none 0 = (.pyStr "a", (), true)
    ∧ (nullBackend.get () "k" 0).1 = .pyNone
    ∧ get_or_set nullBackend () "k" (fun _ => .pyStr "b") none 0 = (.pyStr "b", (), true)
    ∧ PyVal.pyStr "b" ≠ PyVal.pyStr "a" := by
  refine ⟨rfl, rfl, rfl, fun h => ?_⟩
  injection h with h'
  exact absurd h' (by decide)

/-- Claim C8, counterexample: with a shared `MemoryCache(max_size=1)`
backend, a `set` through namespace `"a"` evicts the entry of namespace
`"b"` for the identical raw key part, so `get` through `"b"` observes the
other namespace's `set` (hit before, miss after). -/
theorem namespace_eviction_visibility_cex :
    (SpecializedCache.getOn "b"
      (SpecializedCache.setOn "b" (Manager.mk0 0 0) (MemCache.mk0 1) "x" (.pyStr "v") none 0).1
      (SpecializedCache.setOn "b" (Manager.mk0 0 0) (MemCache.mk0 1) "x" (.pyStr "v") none 0).2
      "x" 0).1 = .pyStr "v"
    ∧ (SpecializedCache.getOn "b"
        (SpecializedCache.setOn "a"
          (SpecializedCache.setOn "b" (Manager.mk0 0 0) (MemCache.mk0 1) "x" (.pyStr "v") none 0).1
          (SpecializedCache.setOn "b" (Manager.mk0 0 0) (MemCache.mk0 1) "x" (.pyStr "v") none 0).2
          "x" (.pyStr "w") none 0).1
        (SpecializedCache.setOn "a"
          (SpecializedCache.setOn "b" (Manager.mk0 0 0) (MemCache.mk0 1) "x" (.pyStr "v") none 0).1
          (SpecializedCache.setOn "b" (Manager.mk0 0 0) (MemCache.mk0 1) "x" (.pyStr "v") none 0).2
          "x" (.pyStr "w") none 0).2
        "x" 0).1 = .pyNone := by
  exact ⟨rfl, rfl⟩

/-- Claim C9: `MemoryCache.exists` applies the same lazy-expiry check as
`get` — an expired entry is deleted and reported absent, with the identical
deletion effect `get` would have — while on a present, unexpired key it
returns `True` leaving the cache state completely unchanged, so every
subsequent `set` (and hence the whole eviction sequence) is the same as if
`exists` had never been called. -/
theorem memory_exists_no_promotion (c : MemCache) (k : String) (now : Nat) :
    (MemoryCache.findEntry c k = none →
      MemoryCache.existsKey c k now = (false, c))
    ∧ (∀ e : MemEntry, MemoryCache.findEntry c k = some e →
        (isExpired e.2.2 now = true →
          MemoryCache.existsKey c k now = (false, MemoryCache.delete c k)
          ∧ MemoryCache.get c k now = (.pyNone, MemoryCache.delete c k))
        ∧ (isExpired e.2.2 now = false →
          MemoryCache.existsKey c k now = (true, c)
          ∧ ∀ (k2 : String) (v2 : PyVal) (ttl2 : Option Nat) (n2 : Nat),
              MemoryCache.set (MemoryCache.existsKey c k now).2 k2 v2 ttl2 n2
                = MemoryCache.set c k2 v2 ttl2 n2)) := by
  refine ⟨fun h => ?_, fun e he => ⟨fun hex => ⟨?_, ?_⟩, fun hex => ⟨?_, ?_⟩⟩⟩ <;>
    simp [MemoryCache.existsKey, MemoryCache.get, *]

/-- Concrete instance of `memory_exists_no_promotion`: a live entry `"a"`
and an entry `"b"` expired at time 5 in a `MemoryCache`. -/
theorem memory_exists_no_promotion_witness :
    MemoryCache.existsKey ⟨10, [("a", .pyInt 1, none), ("b", .pyInt 2, some 1)]⟩ "a" 5
      = (true, ⟨10, [("a", .pyInt 1, none), ("b", .pyInt 2, some 1)]⟩)
    ∧ MemoryCache.existsKey ⟨10, [("a", .pyInt 1, none), ("b", .pyInt 2, some 1)]⟩ "b" 5
      = (false, MemoryCache.delete ⟨10, [("a", .pyInt 1, none), ("b", .pyInt 2, some 1)]⟩ "b")
    ∧ MemoryCache.get ⟨10, [("a", .pyInt 1, none), ("b", .pyInt 2, some 1)]⟩ "b" 5
      = (.pyNone, MemoryCache.delete ⟨10, [("a", .pyInt 1, none), ("b", .pyInt 2, some 1)]⟩ "b") :=
  ⟨(((memory_exists_no_promotion ⟨10, [("a", .pyInt 1, none), ("b", .pyInt 2, some 1)]⟩
      "a" 5).2 ("a", .pyInt 1, none) rfl).2 rfl).1,
   (((memory_exists_no_promotion ⟨10, [("a", .pyInt 1, none), ("b", .pyInt 2, some 1)]⟩
      "b" 5).2 ("b", .pyInt 2, some 1) rfl).1 rfl).1,
   (((memory_exists_no_promotion ⟨10, [("a", .pyInt 1, none), ("b", .pyInt 2, some 1)]⟩
      "b" 5).2 ("b", .pyInt 2, some 1) rfl).1 rfl).2⟩

/-- Claim C6 (amended): for every backend, when `get` reports the key absent
(`None`), `get_or_set(k, f)` invokes `f` exactly once, passes its result to
the backend's `set`, and returns it; and whenever `get` returns a non-`None`
value `v`, `get_or_set(k, g)` returns `v` without invoking `g`. (The
original claim fails on backends that do not retain writes and on `None`
results — see `get_or_set_null_second_factory_cex`.) -/
theorem get_or_set_single_computation {σ : Type} (b : Backend σ) (st : σ)
    (k : String) (f g : Unit → PyVal) (ttl : Option Nat) (now : Nat) :
    ((b.get st k now).1 = .pyNone →
      get_or_set b st k f ttl now
        = (f (), b.set (b.get st k now).2 k (f ()) ttl now, true))
    ∧ (∀ v : PyVal, (b.get st k now).1 = v → v ≠ .pyNone →
      get_or_set b st k g ttl now = (v, (b.get st k now).2, false)) := by
  constructor
  · intro h
    simp [get_or_set, h, PyVal.isNone]
  · intro v hv hne
    have h1 : v.isNone = false := by cases v <;> simp_all [PyVal.isNone]
    simp [get_or_set, hv, h1]

/-- `get_or_set_single_computation` evaluated on the memory backend: a miss
on a fresh cache computes and stores `"a"`; with `"a"` stored, a second call
with factory `"b"` returns `"a"` without invoking it. -/
theorem get_or_set_single_computation_witness :
    get_or_set memBackend (MemCache.mk0 5) "k" (fun _ => .pyStr "a") none 0
      = (.pyStr "a",
         memBackend.set (memBackend.get (MemCache.mk0 5) "k" 0).2 "k" (.pyStr "a") none 0,
         true)
    ∧ get_or_set memBackend (MemoryCache.set (MemCache.mk0 5) "k" (.pyStr "a") none 0)
        "k" (fun _ => .pyStr "b") none 0
      = (.pyStr "a",
         (memBackend.get (MemoryCache.set (MemCache.mk0 5) "k" (.pyStr "a") none 0) "k" 0).2,
         false) :=
  ⟨(get_or_set_single_computation memBackend (MemCache.mk0 5) "k"
      (fun _ => .pyStr "a") (fun _ => .pyStr "b") none 0).1 rfl,
   (get_or_set_single_computation memBackend
      (MemoryCache.set (MemCache.mk0 5) "k" (.pyStr "a") none 0) "k"
      (fun _ => .pyStr "a") (fun _ => .pyStr "b") none 0).2 (.pyStr "a") rfl
      (fun h => nomatch h)⟩

/-- Claim C7: for every backend using the default derived operations, `incr`
on a key whose `get` reports `None` treats the stored value as `0`, returns
the delta, and stores it via `set` — concretely, `incr("c")` on a fresh
memory cache returns `1` and a subsequent `get` yields `1`; `incr` on a
stored non-integer value raises `ValueError`; and `decr(k, d)` is literally
`incr(k, -d)`, returning the same result and state. -/
theorem incr_decr_defaults {σ : Type} (b : Backend σ) (st : σ) (k : String)
    (delta : Int) (now : Nat) :
    ((b.get st k now).1 = .pyNone →
      incr b st k delta now
        = .ok (delta, b.set (b.get st k now).2 k (.pyInt delta) none now))
    ∧ (∀ v : PyVal, (b.get st k now).1 = v → v ≠ .pyNone → v.isInstInt = false →
      incr b st k delta now = .error .valueError)
    ∧ decr b st k delta now = incr b st k (-delta) now
    ∧ incr memBackend (MemCache.mk0 1000) "c" 1 0
        = .ok (1, ⟨1000, [("c", .pyInt 1, none)]⟩)
    ∧ (MemoryCache.get (⟨1000, [("c", .pyInt 1, none)]⟩ : MemCache) "c" 0).1
        = .pyInt 1 := by
  refine ⟨fun h => ?_, fun v hv hne hint => ?_, rfl, rfl, rfl⟩
  · simp [incr, h, PyVal.isNone]
  · have h1 : v.isNone = false := by cases v <;> simp_all [PyVal.isNone]
    simp [incr, hv, h1, hint]

/-- `incr_decr_defaults` evaluated on the memory backend: a fresh-cache
`incr` and an `incr` on a stored string. -/
theorem incr_decr_defaults_witness :
    incr memBackend (MemCache.mk0 1000) "c" 1 0
      = .ok (1, memBackend.set (memBackend.get (MemCache.mk0 1000) "c" 0).2 "c" (.pyInt 1) none 0)
    ∧ incr memBackend (⟨1000, [("s", .pyStr "x", none)]⟩ : MemCache) "s" 1 0
      = .error .valueError :=
  ⟨(incr_decr_defaults memBackend (MemCache.mk0 1000) "c" 1 0).1 rfl,
   (incr_decr_defaults memBackend (⟨1000, [("s", .pyStr "x", none)]⟩ : MemCache) "s" 1 0).2.1
      (.pyStr "x") rfl (fun h => nomatch h) rfl⟩

/-- Claim C5 (amended): on the disk backend, a `set` whose value fails both
codecs raises nothing — it emits a warning and abandons the operation with
the store unchanged, so a key that was absent beforehand is still absent
(but a previously stored entry survives, see
`disk_set_unencodable_preexisting_cex`); and a `get` that finds stored bytes
neither codec can decode raises `CacheError` instead of reporting absence. -/
theorem disk_set_unencodable_recovered (st : DiskState) (k : String)
    (v : PyVal) (ttl : Option Nat) (now : Nat) :
    (is_json_serializable v = false → pickleOk v = false →
      DiskCache.set st k v ttl now = (st, true)
      ∧ ((DiskCache.existsKey st k now).1 = false →
          (DiskCache.existsKey (DiskCache.set st k v ttl now).1 k now).1 = false))
    ∧ (∀ r : Row, st.table.find? (fun r => r.key == k) = some r →
        r.value = .corrupt → DiskCache.rowExpired r now = false →
        DiskCache.get st k now = .error .cacheError) := by
  constructor
  · intro h1 h2
    have hset : DiskCache.set st k v ttl now = (st, true) := by
      simp [DiskCache.set, diskSerialize, h1, h2]
    exact ⟨hset, fun hx => by rw [hset]; exact hx⟩
  · intro r hfind hcorrupt hexp
    simp [DiskCache.get, hfind, hcorrupt, hexp, diskDeserialize, Except.map]

/-- `disk_set_unencodable_recovered` evaluated at a function object written
to a fresh disk cache, and at a table holding one corrupted row. -/
theorem disk_set_unencodable_recovered_witness :
    DiskCache.set (DiskState.mk0 100) "k" .pyLambda none 0 = (DiskState.mk0 100, true)
    ∧ DiskCache.get (⟨100, [⟨"c", .corrupt, none, 0, 1⟩]⟩ : DiskState) "c" 5
      = .error .cacheError :=
  ⟨((disk_set_unencodable_recovered (DiskState.mk0 100) "k" .pyLambda none 0).1
      rfl rfl).1,
   (disk_set_unencodable_recovered (⟨100, [⟨"c", .corrupt, none, 0, 1⟩]⟩ : DiskState)
      "c" .pyNone none 5).2 ⟨"c", .corrupt, none, 0, 1⟩ rfl rfl rfl⟩

/-- Claim C4 (amended): a value the JSON codec accepts, written by `set` and
read back by `get`, comes back as the JSON canonicalization of itself —
equal to the original exactly when the value survives canonicalization
(tuples come back as lists, see `disk_roundtrip_tuple_cex`); a value the
JSON codec rejects but pickle accepts round-trips identically through the
fallback decode path. Stated on a fresh cache whose byte budget admits the
entry. -/
theorem disk_serialization_roundtrip (v : PyVal) (k : String)
    (maxSize : Nat) (now : Nat) :
    (∀ j : Json, jsonEncode v = some j → jsonSize j ≤ maxSize →
      DiskCache.get ((DiskCache.set (DiskState.mk0 maxSize) k v none now).1) k now
        = .ok (jsonDecode j, (DiskCache.set (DiskState.mk0 maxSize) k v none now).1))
    ∧ (∀ j : Json, jsonEncode v = some j → jsonDecode j = v → jsonSize j ≤ maxSize →
      DiskCache.get ((DiskCache.set (DiskState.mk0 maxSize) k v none now).1) k now
        = .ok (v, (DiskCache.set (DiskState.mk0 maxSize) k v none now).1))
    ∧ (jsonEncode v = none → pickleOk v = true →
        storedSize (.pickleBytes v) ≤ maxSize →
      DiskCache.get ((DiskCache.set (DiskState.mk0 maxSize) k v none now).1) k now
        = .ok (v, (DiskCache.set (DiskState.mk0 maxSize) k v none now).1)) := by
  have main : ∀ (data : Stored), diskSerialize v = .ok (data, storedSize data) →
      storedSize data ≤ maxSize →
      DiskCache.get ((DiskCache.set (DiskState.mk0 maxSize) k v none now).1) k now
        = (diskDeserialize data).map
            (fun w => (w, (DiskCache.set (DiskState.mk0 maxSize) k v none now).1)) := by
    intro data hser hsize
    have htab : (DiskCache.set (DiskState.mk0 maxSize) k v none now).1
        = ⟨maxSize, [⟨k, data, none, now, storedSize data⟩]⟩ := by
      simp [DiskCache.set, hser, DiskState.mk0, DiskCache.enforceSizeLimit,
        DiskCache.eraseRow, DiskCache.sumSizes, hsize]
    rw [htab]
    simp [DiskCache.get, List.find?, DiskCache.rowExpired, isExpired]
  refine ⟨fun j hj hsize => ?_, fun j hj hdec hsize => ?_, fun hn hp hsize => ?_⟩
  · have hser : diskSerialize v = .ok (.jsonBytes j, storedSize (.jsonBytes j)) := by
      simp [diskSerialize, is_json_serializable, hj]
    simpa [diskDeserialize, Except.map] using main (.jsonBytes j) hser hsize
  · have hser : diskSerialize v = .ok (.jsonBytes j, storedSize (.jsonBytes j)) := by
      simp [diskSerialize, is_json_serializable, hj]
    simpa [diskDeserialize, Except.map, hdec] using main (.jsonBytes j) hser hsize
  · have hser : diskSerialize v = .ok (.pickleBytes v, storedSize (.pickleBytes v)) := by
      simp [diskSerialize, is_json_serializable, hn, hp]
    simpa [diskDeserialize, Except.map] using main (.pickleBytes v) hser hsize

/-- `disk_serialization_roundtrip` evaluated at a string (JSON path, value
preserved) and at a bytes object (pickle fallback path). -/
theorem disk_serialization_roundtrip_witness :
    DiskCache.get ((DiskCache.set (DiskState.mk0 100) "k" (.pyStr "x") none 0).1) "k" 0
      = .ok (.pyStr "x", (DiskCache.set (DiskState.mk0 100) "k" (.pyStr "x") none 0).1)
    ∧ DiskCache.get ((DiskCache.set (DiskState.mk0 100) "k" (.pyBytes [7]) none 0).1) "k" 0
      = .ok (.pyBytes [7], (DiskCache.set (DiskState.mk0 100) "k" (.pyBytes [7]) none 0).1) :=
  ⟨(disk_serialization_roundtrip (.pyStr "x") "k" 100 0).2.1 (.jstr "x") rfl rfl
      (by decide),
   (disk_serialization_roundtrip (.pyBytes [7]) "k" 100 0).2.2 rfl rfl (by decide)⟩

/-- The C1 scenario on a fresh manager (registry hash `h`): one `set`, one
hit `get`, one miss `get`, one `delete`, all on the default memory backend. -/
def metricsScenario (h : Int) : Manager :=
  CacheManager.delete
    ((CacheManager.get
      ((CacheManager.get
        (CacheManager.set (Manager.mk0 h 0) "key1" (.pyStr "v1") none 0)
        "key1" 0).2)
      "key2" 0).2)
    "key1"

/-- Claim C1: the four counters do come out as `hits=1, misses=1, sets=1,
deletes=1` under the backend name `"memory"`, but `get_metrics` computes
`hit_rates` keyed by the `_backends` *registry key*
(`f"memory:{hash(frozenset())}"`), under which both counters read `0` — so
`hit_rates` has no `"memory"` entry at all (its sole entry carries rate `0`,
not `0.5`), for every possible hash value `h`. This contradicts the claim
and the repository's own test (`test_metrics` asserts
`metrics["hit_rates"].get("memory", 0) == 0.5`). -/
theorem metrics_hit_rates_keyed_by_registry_key (h : Int) :
    lookupCount (CacheManager.get_metrics (metricsScenario h) 0).hits "memory" = 1
    ∧ lookupCount (CacheManager.get_metrics (metricsScenario h) 0).misses "memory" = 1
    ∧ lookupCount (CacheManager.get_metrics (metricsScenario h) 0).sets "memory" = 1
    ∧ lookupCount (CacheManager.get_metrics (metricsScenario h) 0).deletes "memory" = 1
    ∧ (CacheManager.get_metrics (metricsScenario h) 0).hitRates
        = [("memory:" ++ toString h, 0)]
    ∧ ((CacheManager.get_metrics (metricsScenario h) 0).hitRates.find?
        (fun p => p.1 == "memory")) = none := by
  have hne : "memory" ≠ "memory:" ++ toString h := by
    intro he
    have hlen := congrArg String.length he
    rw [String.length_append] at hlen
    have h6 : ("memory" : String).length = 6 := rfl
    have h7 : ("memory:" : String).length = 7 := rfl
    rw [h6, h7] at hlen
    omega
  have hbeq1 : (("memory" : String) == "memory:" ++ toString h) = false :=
    beq_eq_false_iff_ne.mpr hne
  have hbeq2 : (("memory:" ++ toString h : String) == "memory") = false :=
    beq_eq_false_iff_ne.mpr (Ne.symm hne)
  have hA : CacheManager.set (Manager.mk0 h 0) "key1" (.pyStr "v1") none 0
      = ⟨h, ["memory:" ++ toString h], ⟨1000, [("key1", .pyStr "v1", none)]⟩,
         [], [], [("memory", 1)], [], 0⟩ := by
    simp [CacheManager.set, CacheManager.touchDefault, CacheManager.registryKey,
      Manager.mk0, MemCache.mk0, MemoryCache.set, MemoryCache.eraseKey,
      MemoryCache.evictOldest, MemoryCache.evictLoop, bumpCounter]
  have hB : (CacheManager.get
      (⟨h, ["memory:" ++ toString h], ⟨1000, [("key1", .pyStr "v1", none)]⟩,
        [], [], [("memory", 1)], [], 0⟩ : Manager) "key1" 0).2
      = ⟨h, ["memory:" ++ toString h], ⟨1000, [("key1", .pyStr "v1", none)]⟩,
         [("memory", 1)], [], [("memory", 1)], [], 0⟩ := by
    simp [CacheManager.get, CacheManager.touchDefault, CacheManager.registryKey,
      MemoryCache.get, MemoryCache.findEntry, MemoryCache.moveToEnd,
      MemoryCache.eraseKey, isExpired, PyVal.isNone, bumpCounter, List.find?]
  have hC : (CacheManager.get
      (⟨h, ["memory:" ++ toString h], ⟨1000, [("key1", .pyStr "v1", none)]⟩,
        [("memory", 1)], [], [("memory", 1)], [], 0⟩ : Manager) "key2" 0).2
      = ⟨h, ["memory:" ++ toString h], ⟨1000, [("key1", .pyStr "v1", none)]⟩,
         [("memory", 1)], [("memory", 1)], [("memory", 1)], [], 0⟩ := by
    simp [CacheManager.get, CacheManager.touchDefault, CacheManager.registryKey,
      MemoryCache.get, MemoryCache.findEntry, isExpired, PyVal.isNone,
      bumpCounter, List.find?]
  have hD : CacheManager.delete
      (⟨h, ["memory:" ++ toString h], ⟨1000, [("key1", .pyStr "v1", none)]⟩,
        [("memory", 1)], [("memory", 1)], [("memory", 1)], [], 0⟩ : Manager) "key1"
      = ⟨h, ["memory:" ++ toString h], ⟨1000, []⟩,
         [("memory", 1)], [("memory", 1)], [("memory", 1)], [("memory", 1)], 0⟩ := by
    simp [CacheManager.delete, CacheManager.touchDefault, CacheManager.registryKey,
      MemoryCache.delete, MemoryCache.eraseKey, bumpCounter]
  have hScen : metricsScenario h
      = ⟨h, ["memory:" ++ toString h], ⟨1000, []⟩,
         [("memory", 1)], [("memory", 1)], [("memory", 1)], [("memory", 1)], 0⟩ := by
    unfold metricsScenario
    rw [hA, hB, hC, hD]
  rw [hScen]
  refine ⟨?_, ?_, ?_, ?_, ?_, ?_⟩ <;>
    simp [CacheManager.get_metrics, lookupCount, hbeq1, hbeq2, List.find?]

/-- Right cancellation for string append. -/
theorem string_append_cancel_right (s t u : String) (h : s ++ u = t ++ u) :
    s = t := by
  have hd : s.data ++ u.data = t.data ++ u.data := by
    rw [← String.data_append, ← String.data_append, h]
  have hst : s.data = t.data := List.append_cancel_right hd
  cases s
  cases t
  exact congrArg String.mk hst

/-- Distinct namespaces always produce distinct full keys for identical raw
key parts. -/
theorem getKey_injective_left (ns1 ns2 : String) (parts : List String)
    (hne : ns1 ≠ ns2) :
    SpecializedCache.getKey ns1 parts ≠ SpecializedCache.getKey ns2 parts := by
  intro he
  apply hne
  have h1 : ns1 ++ (":" ++ String.intercalate ":" parts)
      = ns2 ++ (":" ++ String.intercalate ":" parts) := by
    simpa [SpecializedCache.getKey, String.append_assoc] using he
  exact string_append_cancel_right ns1 ns2 _ h1

/-- Erasing one key's binding leaves every other key's lookup unchanged. -/
theorem find?_eraseKey (l : List MemEntry) (k1 k2 : String) (hne : k1 ≠ k2) :
    (MemoryCache.eraseKey l k1).find? (fun e => e.1 == k2)
      = l.find? (fun e => e.1 == k2) := by
  induction l with
  | nil => rfl
  | cons e t ih =>
    show (List.filter (fun e => !(e.1 == k1)) (e :: t)).find? (fun e => e.1 == k2)
        = (e :: t).find? (fun e => e.1 == k2)
    rw [List.filter_cons]
    cases hbe : (e.1 == k1) with
    | true =>
      have he1 : e.1 = k1 := eq_of_beq hbe
      have h2 : (e.1 == k2) = false := by
        rw [he1]
        exact beq_eq_false_iff_ne.mpr hne
      rw [Bool.not_true, if_neg Bool.false_ne_true,
        @List.find?_cons_of_neg _ (fun e => e.1 == k2) e t
          (by show ¬(e.1 == k2) = true; rw [h2]; exact Bool.false_ne_true)]
      exact ih
    | false =>
      rw [Bool.not_false, if_pos rfl]
      cases h2 : (e.1 == k2) with
      | true =>
        rw [@List.find?_cons_of_pos _ (fun e => e.1 == k2) e
              (List.filter (fun e => !(e.1 == k1)) t) h2,
            @List.find?_cons_of_pos _ (fun e => e.1 == k2) e t h2]
      | false =>
        rw [@List.find?_cons_of_neg _ (fun e => e.1 == k2) e
              (List.filter (fun e => !(e.1 == k1)) t)
              (by show ¬(e.1 == k2) = true; rw [h2]; exact Bool.false_ne_true),
            @List.find?_cons_of_neg _ (fun e => e.1 == k2) e t
              (by show ¬(e.1 == k2) = true; rw [h2]; exact Bool.false_ne_true)]
        exact ih

/-- A cache not over capacity is untouched by the eviction loop. -/
theorem evictOldest_noop (l : List MemEntry) (maxSize : Nat)
    (h : l.length ≤ maxSize) : MemoryCache.evictOldest l maxSize = l := by
  have h' : ¬(l.length > maxSize) := by omega
  cases l with
  | nil => rfl
  | cons a t =>
    show MemoryCache.evictLoop (a :: t).length (a :: t) maxSize = a :: t
    rw [show (a :: t).length = t.length + 1 from rfl] at h' ⊢
    rw [MemoryCache.evictLoop]
    rw [if_neg (by simpa using h')]

/-- The value returned by `MemoryCache.get` depends only on the key's
binding. -/
theorem get_val_congr (c1 c2 : MemCache) (k : String) (now : Nat)
    (hf : MemoryCache.findEntry c1 k = MemoryCache.findEntry c2 k) :
    (MemoryCache.get c1 k now).1 = (MemoryCache.get c2 k now).1 := by
  unfold MemoryCache.get
  rw [hf]
  cases MemoryCache.findEntry c2 k with
  | none => rfl
  | some e => by_cases hex : isExpired e.2.2 now <;> simp [hex]

/-- The answer of `MemoryCache.exists` depends only on the key's binding. -/
theorem existsKey_val_congr (c1 c2 : MemCache) (k : String) (now : Nat)
    (hf : MemoryCache.findEntry c1 k = MemoryCache.findEntry c2 k) :
    (MemoryCache.existsKey c1 k now).1 = (MemoryCache.existsKey c2 k now).1 := by
  unfold MemoryCache.existsKey
  rw [hf]
  cases MemoryCache.findEntry c2 k with
  | none => rfl
  | some e => by_cases hex : isExpired e.2.2 now <;> simp [hex]

/-- The value returned through the manager equals the backend value (the
manager only adds metrics bookkeeping). -/
theorem getOn_val (m : Manager) (bc : MemCache) (k : String) (now : Nat) :
    (CacheManager.getOn m bc k now).1 = (MemoryCache.get bc k now).1 := by
  unfold CacheManager.getOn
  by_cases hc : (MemoryCache.get bc k now).1.isNone = true <;> simp [hc]

/-- Claim C8 (amended): every key a specialized cache passes to the manager
has the form `namespace + ":" + joined parts`, and distinct namespaces yield
distinct keys for identical raw parts; consequently, over a shared memory
backend, a `delete` through one namespace never changes what `get`/`exists`
through the other observes, and — provided the backend is below capacity,
so no LRU eviction fires — neither does a `set`. (At capacity a `set`
through one namespace can evict the other namespace's entry and so *is*
observable, see `namespace_eviction_visibility_cex`.) -/
theorem namespace_isolation (ns1 ns2 : String) (parts : List String)
    (k : String) (m : Manager) (bc : MemCache) (v : PyVal)
    (ttl : Option Nat) (now : Nat) (hne : ns1 ≠ ns2) :
    SpecializedCache.getKey ns1 parts = ns1 ++ ":" ++ String.intercalate ":" parts
    ∧ SpecializedCache.getKey ns1 parts ≠ SpecializedCache.getKey ns2 parts
    ∧ (SpecializedCache.getOn ns2 m (SpecializedCache.deleteOn ns1 m bc k).2 k now).1
        = (SpecializedCache.getOn ns2 m bc k now).1
    ∧ (SpecializedCache.existsOn ns2 m (SpecializedCache.deleteOn ns1 m bc k).2 k now).1
        = (SpecializedCache.existsOn ns2 m bc k now).1
    ∧ (bc.data.length < bc.maxSize →
        (SpecializedCache.getOn ns2 m (SpecializedCache.setOn ns1 m bc k v ttl now).2 k now).1
          = (SpecializedCache.getOn ns2 m bc k now).1)
    ∧ (bc.data.length < bc.maxSize →
        (SpecializedCache.existsOn ns2 m (SpecializedCache.setOn ns1 m bc k v ttl now).2 k now).1
          = (SpecializedCache.existsOn ns2 m bc k now).1) := by
  have hkk : SpecializedCache.getKey ns1 [k] ≠ SpecializedCache.getKey ns2 [k] :=
    getKey_injective_left ns1 ns2 [k] hne
  have hdel : MemoryCache.findEntry
      (MemoryCache.delete bc (SpecializedCache.getKey ns1 [k]))
      (SpecializedCache.getKey ns2 [k])
      = MemoryCache.findEntry bc (SpecializedCache.getKey ns2 [k]) := by
    simpa [MemoryCache.findEntry, MemoryCache.delete] using
      find?_eraseKey bc.data (SpecializedCache.getKey ns1 [k])
        (SpecializedCache.getKey ns2 [k]) hkk
  have hset : bc.data.length < bc.maxSize →
      MemoryCache.findEntry
        (MemoryCache.set bc (SpecializedCache.getKey ns1 [k]) v ttl now)
        (SpecializedCache.getKey ns2 [k])
        = MemoryCache.findEntry bc (SpecializedCache.getKey ns2 [k]) := by
    intro hcap
    have hlen : (MemoryCache.eraseKey bc.data (SpecializedCache.getKey ns1 [k])
        ++ [(SpecializedCache.getKey ns1 [k], v, ttl.map (fun t => now + t))]).length
        ≤ bc.maxSize := by
      have hfl := List.length_filter_le
        (fun e : MemEntry => !(e.1 == SpecializedCache.getKey ns1 [k])) bc.data
      simp only [List.length_append, List.length_cons, List.length_nil,
        MemoryCache.eraseKey]
      omega
    have hbeq : (SpecializedCache.getKey ns1 [k] == SpecializedCache.getKey ns2 [k])
        = false := beq_eq_false_iff_ne.mpr hkk
    have hsingle : List.find? (fun e : MemEntry => e.1 == SpecializedCache.getKey ns2 [k])
        [(SpecializedCache.getKey ns1 [k], v, ttl.map (fun t => now + t))] = none := by
      rw [@List.find?_cons_of_neg _
            (fun e : MemEntry => e.1 == SpecializedCache.getKey ns2 [k])
            (SpecializedCache.getKey ns1 [k], v, ttl.map (fun t => now + t)) []
            (by show ¬(SpecializedCache.getKey ns1 [k] == SpecializedCache.getKey ns2 [k]) = true
                rw [hbeq]
                exact Bool.false_ne_true)]
      rfl
    simp only [MemoryCache.findEntry, MemoryCache.set, evictOldest_noop _ _ hlen]
    rw [List.find?_append, find?_eraseKey bc.data _ _ hkk, hsingle, Option.or_none]
  refine ⟨rfl, getKey_injective_left ns1 ns2 parts hne, ?_, ?_, fun hcap => ?_, fun hcap => ?_⟩
  · show (CacheManager.getOn m (MemoryCache.delete bc (SpecializedCache.getKey ns1 [k]))
        (SpecializedCache.getKey ns2 [k]) now).1
      = (CacheManager.getOn m bc (SpecializedCache.getKey ns2 [k]) now).1
    rw [getOn_val, getOn_val]
    exact get_val_congr _ _ _ _ hdel
  · exact existsKey_val_congr _ _ _ _ hdel
  · show (CacheManager.getOn m (MemoryCache.set bc (SpecializedCache.getKey ns1 [k]) v ttl now)
        (SpecializedCache.getKey ns2 [k]) now).1
      = (CacheManager.getOn m bc (SpecializedCache.getKey ns2 [k]) now).1
    rw [getOn_val, getOn_val]
    exact get_val_congr _ _ _ _ (hset hcap)
  · exact existsKey_val_congr _ _ _ _ (hset hcap)

/-- `namespace_isolation` evaluated at namespaces `"a"`, `"b"`, raw key
`"x"`, a backend holding `"b:x"` with room to spare. -/
theorem namespace_isolation_witness :
    (SpecializedCache.getOn "b" (Manager.mk0 0 0)
      (SpecializedCache.setOn "a" (Manager.mk0 0 0)
        (⟨10, [("b:x", .pyStr "v", none)]⟩ : MemCache) "x" (.pyStr "w") none 0).2
      "x" 0).1
      = (SpecializedCache.getOn "b" (Manager.mk0 0 0)
          (⟨10, [("b:x", .pyStr "v", none)]⟩ : MemCache) "x" 0).1
    ∧ SpecializedCache.getKey "a" ["x"] ≠ SpecializedCache.getKey "b" ["x"] :=
  ⟨(namespace_isolation "a" "b" ["x"] "x" (Manager.mk0 0 0)
      (⟨10, [("b:x", .pyStr "v", none)]⟩ : MemCache) (.pyStr "w") none 0
      (by decide)).2.2.2.2.1 (by decide),
   (namespace_isolation "a" "b" ["x"] "x" (Manager.mk0 0 0)
      (⟨10, [("b:x", .pyStr "v", none)]⟩ : MemCache) (.pyStr "w") none 0
      (by decide)).2.1⟩

/-- `SUM(size)` distributes over a row cons. -/
theorem sumSizes_cons (r : Row) (t : List Row) :
    DiskCache.sumSizes (r :: t) = r.size + DiskCache.sumSizes t := by
  simp [DiskCache.sumSizes]

/-- The deletion set accumulated by `_enforce_size_limit` step (c) is always
the keys of a *prefix* of the scanned (oldest-first) rows. -/
theorem collectDel_take (rows : List Row) (cur maxSize del : Nat) :
    ∃ n, n ≤ rows.length
      ∧ DiskCache.collectDel rows cur maxSize del = (rows.take n).map Row.key := by
  induction rows generalizing del with
  | nil => exact ⟨0, Nat.le_refl 0, rfl⟩
  | cons r rest ih =>
    by_cases hc : cur - (del + r.size) ≤ maxSize
    · exact ⟨1, by simp, by simp [DiskCache.collectDel, hc]⟩
    · obtain ⟨n, hn, he⟩ := ih (del + r.size)
      refine ⟨n + 1, by simpa using Nat.succ_le_succ hn, ?_⟩
      simp [DiskCache.collectDel, hc, he]

/-- When the scan starts with `currentSize` equal to the deleted-so-far
count plus the total of the remaining rows (the invariant `set` establishes
with `del = 0`), the rows *after* the accumulated prefix fit the budget. -/
theorem collectDel_bound (rows : List Row) (maxSize : Nat) :
    ∀ del, DiskCache.sumSizes (rows.drop
      (DiskCache.collectDel rows (del + DiskCache.sumSizes rows) maxSize del).length)
      ≤ maxSize := by
  induction rows with
  | nil => intro del; simp [DiskCache.collectDel, DiskCache.sumSizes]
  | cons r rest ih =>
    intro del
    by_cases hc : (del + DiskCache.sumSizes (r :: rest)) - (del + r.size) ≤ maxSize
    · have hrest : DiskCache.sumSizes rest ≤ maxSize := by
        rw [sumSizes_cons] at hc
        omega
      rw [show DiskCache.collectDel (r :: rest)
            (del + DiskCache.sumSizes (r :: rest)) maxSize del = [r.key] from by
          simp [DiskCache.collectDel, hc]]
      simpa using hrest
    · have hsum : del + DiskCache.sumSizes (r :: rest)
          = del + r.size + DiskCache.sumSizes rest := by
        rw [sumSizes_cons]
        omega
      rw [hsum]
      rw [show DiskCache.collectDel (r :: rest)
            (del + r.size + DiskCache.sumSizes rest) maxSize del
          = r.key :: DiskCache.collectDel rest
              (del + r.size + DiskCache.sumSizes rest) maxSize (del + r.size) from by
          simp only [DiskCache.collectDel]
          rw [if_neg (by rw [hsum] at hc; exact hc)]]
      simp only [List.length_cons, List.drop_succ_cons]
      exact ih (del + r.size)

/-- After `_enforce_size_limit`, the summed `size` column fits the budget —
unconditionally: either it already fitted, or eviction brought it down. -/
theorem enforce_le (t : List Row) (now maxSize : Nat) :
    DiskCache.sumSizes (DiskCache.enforceSizeLimit t now maxSize) ≤ maxSize := by
  simp only [DiskCache.enforceSizeLimit]
  split_ifs with h1 h2
  · exact h1
  · exact h2
  · set t1 := t.filter (fun r => !(DiskCache.rowExpired r now)) with ht1
    set s := DiskCache.sortByCreated t1 with hs
    have hperm : s.Perm t1 := List.perm_insertionSort _ t1
    have hsumst : DiskCache.sumSizes s = DiskCache.sumSizes t1 := by
      simpa [DiskCache.sumSizes] using (hperm.map Row.size).sum_eq
    obtain ⟨n, hn, hdels⟩ := collectDel_take s (DiskCache.sumSizes t1) maxSize 0
    set dels := DiskCache.collectDel s (DiskCache.sumSizes t1) maxSize 0 with hdelsdef
    have hlen : dels.length = n := by
      rw [hdels, List.length_map]
      exact List.length_take_of_le hn
    have hnil : (s.take n).filter (fun r => !(dels.contains r.key)) = [] := by
      apply List.filter_eq_nil_iff.mpr
      intro r hr
      have hkey : r.key ∈ dels := by
        rw [hdels]
        exact List.mem_map_of_mem Row.key hr
      have hcon : dels.contains r.key = true := List.elem_eq_true_of_mem hkey
      show ¬(!(dels.contains r.key)) = true
      rw [hcon]
      decide
    have hfilters : s.filter (fun r => !(dels.contains r.key))
        = (s.drop n).filter (fun r => !(dels.contains r.key)) := by
      conv_lhs => rw [← List.take_append_drop n s]
      rw [List.filter_append, hnil, List.nil_append]
    have hdropbound : DiskCache.sumSizes (s.drop n) ≤ maxSize := by
      have hb := collectDel_bound s maxSize 0
      rw [Nat.zero_add, hsumst] at hb
      rw [← hlen]
      exact hb
    have hsl : List.Sublist
        ((s.drop n).filter (fun r => !(dels.contains r.key))) (s.drop n) :=
      List.filter_sublist _
    have h3 : DiskCache.sumSizes (s.filter (fun r => !(dels.contains r.key)))
        ≤ maxSize := by
      rw [hfilters]
      refine le_trans ?_ hdropbound
      simpa [DiskCache.sumSizes] using (hsl.map Row.size).sum_le_sum (by simp)
    have hp2 : (t1.filter (fun r => !(dels.contains r.key))).Perm
        (s.filter (fun r => !(dels.contains r.key))) := (hperm.filter _).symm
    have heq : DiskCache.sumSizes (t1.filter (fun r => !(dels.contains r.key)))
        = DiskCache.sumSizes (s.filter (fun r => !(dels.contains r.key))) := by
      simpa [DiskCache.sumSizes] using (hp2.map Row.size).sum_eq
    rw [heq]
    exact h3

/-- Claim C2: disk size enforcement after every `set`: (a) nothing is
deleted when the summed `size` column fits `max_size`; (b)/(c) otherwise
expired rows go first and, if still over, the batch deleted in one go is the
keys of a *prefix* of the remaining rows in `created_at`-ascending order
(oldest first, regardless of access recency); and after any `set` that
stores (serialization succeeded), the total remaining size is at most
`max_size`. -/
theorem disk_size_enforcement (table : List Row) (now maxSize : Nat) :
    DiskCache.sumSizes (DiskCache.enforceSizeLimit table now maxSize) ≤ maxSize
    ∧ (DiskCache.sumSizes table ≤ maxSize →
        DiskCache.enforceSizeLimit table now maxSize = table)
    ∧ (∀ cur del : Nat, ∃ n, n ≤ table.length
        ∧ DiskCache.collectDel table cur maxSize del = (table.take n).map Row.key)
    ∧ (¬ DiskCache.sumSizes table ≤ maxSize →
       ¬ DiskCache.sumSizes (table.filter (fun r => !(DiskCache.rowExpired r now)))
          ≤ maxSize →
        ∃ n, DiskCache.enforceSizeLimit table now maxSize
          = (table.filter (fun r => !(DiskCache.rowExpired r now))).filter
              (fun r => !((((DiskCache.sortByCreated
                  (table.filter (fun r => !(DiskCache.rowExpired r now)))).take n).map
                    Row.key).contains r.key)))
    ∧ (∀ (st : DiskState) (k : String) (v : PyVal) (ttl : Option Nat)
        (data : Stored) (size : Nat), diskSerialize v = .ok (data, size) →
        DiskCache.sumSizes (DiskCache.set st k v ttl now).1.table ≤ st.maxSize) := by
  refine ⟨enforce_le table now maxSize, fun h1 => ?_, fun cur del => ?_,
    fun h1 h2 => ?_, fun st k v ttl data size hser => ?_⟩
  · simp only [DiskCache.enforceSizeLimit]
    rw [if_pos h1]
  · obtain ⟨n, hn, he⟩ := collectDel_take table cur maxSize del
    exact ⟨n, hn, he⟩
  · obtain ⟨n, hn, hdels⟩ := collectDel_take
      (DiskCache.sortByCreated
        (table.filter (fun r => !(DiskCache.rowExpired r now))))
      (DiskCache.sumSizes (table.filter (fun r => !(DiskCache.rowExpired r now))))
      maxSize 0
    refine ⟨n, ?_⟩
    simp only [DiskCache.enforceSizeLimit]
    rw [if_neg h1, if_neg h2, hdels]
  · simp only [DiskCache.set, hser]
    exact enforce_le _ now st.maxSize

/-- `disk_size_enforcement` evaluated concretely: a one-row table within
budget is untouched, and a `set` that overflows a 10-byte budget on a
two-row table leaves at most 10 stored bytes. -/
theorem disk_size_enforcement_witness :
    DiskCache.enforceSizeLimit [⟨"a", .pickleBytes .pyNone, none, 0, 64⟩] 5 100
      = [⟨"a", .pickleBytes .pyNone, none, 0, 64⟩]
    ∧ DiskCache.sumSizes
        (DiskCache.set
          (⟨10, [⟨"a", .jsonBytes (.jstr "aa"), none, 0, 4⟩,
                 ⟨"b", .jsonBytes (.jstr "bb"), some 3, 1, 4⟩]⟩ : DiskState)
          "c" (.pyStr "ccc") none 7).1.table ≤ 10 :=
  ⟨(disk_size_enforcement [⟨"a", .pickleBytes .pyNone, none, 0, 64⟩] 5 100).2.1
      (by decide),
   (disk_size_enforcement [] 7 10).2.2.2.2
      (⟨10, [⟨"a", .jsonBytes (.jstr "aa"), none, 0, 4⟩,
             ⟨"b", .jsonBytes (.jstr "bb"), some 3, 1, 4⟩]⟩ : DiskState)
      "c" (.pyStr "ccc") none (.jsonBytes (.jstr "ccc")) 5 rfl⟩

/-- Insert a list of `(key, value)` pairs in order with `set` (no TTLs) —
the access pattern of the LRU-bound property. -/
def insertSeq (c : MemCache) (kvs : List (String × PyVal)) (now : Nat) :
    MemCache :=
  kvs.foldl (fun a kv => MemoryCache.set a kv.1 kv.2 none now) c

/-- The eviction loop drops exactly the overflow from the
least-recently-used end, given enough fuel. -/
theorem evictLoop_drop :
    ∀ (fuel : Nat) (l : List MemEntry) (maxSize : Nat),
      l.length - maxSize ≤ fuel →
      MemoryCache.evictLoop fuel l maxSize = l.drop (l.length - maxSize) := by
  intro fuel
  induction fuel with
  | zero =>
    intro l maxSize h
    have h0 : l.length - maxSize = 0 := by omega
    show l = l.drop (l.length - maxSize)
    rw [h0, List.drop_zero]
  | succ fuel ih =>
    intro l maxSize h
    by_cases hc : l.length > maxSize
    · cases l with
      | nil => simp at hc
      | cons a t =>
        simp only [MemoryCache.evictLoop]
        rw [if_pos hc]
        have ht : t.length - maxSize ≤ fuel := by
          simp only [List.length_cons] at h hc
          omega
        show MemoryCache.evictLoop fuel t maxSize = _
        rw [ih t maxSize ht]
        simp only [List.length_cons] at hc ⊢
        rw [show t.length + 1 - maxSize = (t.length - maxSize) + 1 from by omega,
          List.drop_succ_cons]
    · simp only [MemoryCache.evictLoop]
      rw [if_neg hc]
      have h0 : l.length - maxSize = 0 := by omega
      rw [h0, List.drop_zero]

/-- `evictOldest` keeps exactly the newest `maxSize` entries. -/
theorem evictOldest_eq_drop (l : List MemEntry) (maxSize : Nat) :
    MemoryCache.evictOldest l maxSize = l.drop (l.length - maxSize) :=
  evictLoop_drop l.length l maxSize (by omega)

/-- Erasing a key that is bound nowhere is a no-op. -/
theorem eraseKey_of_fresh (l : List MemEntry) (k : String)
    (h : ∀ e ∈ l, e.1 ≠ k) : MemoryCache.eraseKey l k = l := by
  apply List.filter_eq_self.mpr
  intro e he
  simp [beq_eq_false_iff_ne.mpr (h e he)]

/-- `set` never changes the configured bound, so neither does a whole
insertion sequence. -/
theorem insertSeq_maxSize (now : Nat) (kvs : List (String × PyVal)) :
    ∀ c : MemCache, (insertSeq c kvs now).maxSize = c.maxSize := by
  induction kvs with
  | nil => intro c; rfl
  | cons kv rest ih => intro c; exact ih (MemoryCache.set c kv.1 kv.2 none now)

/-- Core LRU computation: inserting fresh, pairwise-distinct keys into a
cache within its bound leaves exactly the newest `maxSize` entries, in
order. -/
theorem insertSeq_data (now : Nat) (kvs : List (String × PyVal)) :
    ∀ c : MemCache,
      (c.data.map (fun e => e.1) ++ kvs.map (fun kv => kv.1)).Nodup →
      c.data.length ≤ c.maxSize →
      (insertSeq c kvs now).data
        = (c.data ++ kvs.map (fun kv => (kv.1, kv.2, (none : Option Nat)))).drop
            (c.data.length + kvs.length - c.maxSize) := by
  induction kvs with
  | nil =>
    intro c hnd hlen
    show c.data = _
    rw [List.map_nil, List.append_nil, List.length_nil]
    rw [show c.data.length + 0 - c.maxSize = 0 from by omega, List.drop_zero]
  | cons kv rest ih =>
    intro c hnd hlen
    have hkfresh : ∀ e ∈ c.data, e.1 ≠ kv.1 := by
      intro e he heq
      have h1 : e.1 ∈ c.data.map (fun e => e.1) := List.mem_map_of_mem _ he
      have hdisj : (c.data.map (fun e => e.1)).Disjoint
          ((kv :: rest).map (fun kv => kv.1)) :=
        List.disjoint_of_nodup_append hnd
      exact hdisj h1 (by rw [heq]; simp)
    have herase : MemoryCache.eraseKey c.data kv.1 = c.data :=
      eraseKey_of_fresh _ _ hkfresh
    have hc'data : (MemoryCache.set c kv.1 kv.2 none now).data
        = (c.data ++ [(kv.1, kv.2, none)]).drop (c.data.length + 1 - c.maxSize) := by
      show MemoryCache.evictOldest
          (MemoryCache.eraseKey c.data kv.1 ++ [(kv.1, kv.2, Option.map _ none)])
          c.maxSize = _
      rw [Option.map_none', herase, evictOldest_eq_drop]
      congr 1
      simp
    have hc'len : (MemoryCache.set c kv.1 kv.2 none now).data.length
        = c.data.length + 1 - (c.data.length + 1 - c.maxSize) := by
      rw [hc'data, List.length_drop]
      congr 1
      simp
    have hc'max : (MemoryCache.set c kv.1 kv.2 none now).maxSize = c.maxSize := rfl
    have hnd' : ((MemoryCache.set c kv.1 kv.2 none now).data.map (fun e => e.1)
        ++ rest.map (fun kv => kv.1)).Nodup := by
      have hkeys : (MemoryCache.set c kv.1 kv.2 none now).data.map (fun e => e.1)
          = ((c.data.map (fun e => e.1) ++ [kv.1]).drop
              (c.data.length + 1 - c.maxSize)) := by
        rw [hc'data, List.map_drop]
        congr 1
        simp
      have hsub : List.Sublist
          ((MemoryCache.set c kv.1 kv.2 none now).data.map (fun e => e.1)
            ++ rest.map (fun kv => kv.1))
          ((c.data.map (fun e => e.1) ++ [kv.1]) ++ rest.map (fun kv => kv.1)) := by
        rw [hkeys]
        exact (List.drop_sublist _ _).append_right _
      refine List.Nodup.sublist hsub ?_
      rw [List.append_assoc, List.singleton_append]
      simpa using hnd
    have hlen' : (MemoryCache.set c kv.1 kv.2 none now).data.length
        ≤ (MemoryCache.set c kv.1 kv.2 none now).maxSize := by
      rw [hc'len, hc'max]
      omega
    have hstep : insertSeq c (kv :: rest) now
        = insertSeq (MemoryCache.set c kv.1 kv.2 none now) rest now := rfl
    rw [hstep, ih _ hnd' hlen', hc'max, hc'data]
    rw [← List.drop_append_of_le_length (by
      simp only [List.length_append, List.length_cons, List.length_nil]
      omega), List.drop_drop]
    rw [List.append_assoc, List.singleton_append]
    simp only [List.map_cons]
    congr 1
    simp only [List.length_drop, List.length_append, List.length_cons,
      List.length_nil, List.length_map]
    omega

/-- Looking up a pair's key among inserted entries with pairwise-distinct
keys finds exactly that pair's entry. -/
theorem find?_insertedEntries (kvs : List (String × PyVal))
    (kv : String × PyVal) (hnd : (kvs.map (fun kv => kv.1)).Nodup)
    (hmem : kv ∈ kvs) :
    (kvs.map (fun kv => (kv.1, kv.2, (none : Option Nat)))).find?
      (fun e => e.1 == kv.1) = some (kv.1, kv.2, none) := by
  induction kvs with
  | nil => cases hmem
  | cons a t ih =>
    rcases List.mem_cons.mp hmem with h | h
    · subst h
      rw [List.map_cons]
      exact List.find?_cons_of_pos _ (by simp)
    · have hknot : a.1 ∉ t.map (fun kv => kv.1) := by
        rw [List.map_cons] at hnd
        exact (List.nodup_cons.mp hnd).1
      have hane : ¬((fun e : MemEntry => e.1 == kv.1) (a.1, a.2, none)) = true := by
        intro hb
        exact hknot ((eq_of_beq hb) ▸ List.mem_map_of_mem _ h)
      rw [List.map_cons]
      rw [@List.find?_cons_of_neg _ (fun e => e.1 == kv.1) (a.1, a.2, none)
            (t.map (fun kv => (kv.1, kv.2, none))) hane]
      have hndt : (t.map (fun kv => kv.1)).Nodup := by
        rw [List.map_cons] at hnd
        exact (List.nodup_cons.mp hnd).2
      exact ih hndt h

/-- `eraseKey` on a bound key removes exactly one entry (keys unique). -/
theorem eraseKey_length_mem (l : List MemEntry) (k : String)
    (hnd : (l.map (fun e => e.1)).Nodup) (hmem : k ∈ l.map (fun e => e.1)) :
    (MemoryCache.eraseKey l k).length + 1 = l.length := by
  induction l with
  | nil => cases hmem
  | cons e t ih =>
    have het : e.1 ∉ t.map (fun e => e.1) := by
      rw [List.map_cons] at hnd
      exact (List.nodup_cons.mp hnd).1
    have hndt : (t.map (fun e => e.1)).Nodup := by
      rw [List.map_cons] at hnd
      exact (List.nodup_cons.mp hnd).2
    rw [List.map_cons] at hmem
    rcases List.mem_cons.mp hmem with h | h
    · subst h
      have herase : MemoryCache.eraseKey t e.1 = t :=
        eraseKey_of_fresh _ _
          (fun x hx hxk => het (hxk ▸ List.mem_map_of_mem (fun e => e.1) hx))
      have hstep : MemoryCache.eraseKey (e :: t) e.1
          = MemoryCache.eraseKey t e.1 := by
        simp only [MemoryCache.eraseKey, List.filter_cons]
        rw [if_neg (by simp)]
      rw [hstep, herase, List.length_cons]
    · have hek : (e.1 == k) = false := by
        apply beq_eq_false_iff_ne.mpr
        intro heq
        exact het (heq ▸ h)
      have hstep : MemoryCache.eraseKey (e :: t) k
          = e :: MemoryCache.eraseKey t k := by
        simp only [MemoryCache.eraseKey, List.filter_cons]
        rw [if_pos (by rw [hek]; rfl)]
      rw [hstep, List.length_cons, List.length_cons, ← ih hndt h]

/-- The concrete insertion sequence of the LRU-bound test: `key0..key14`
with values `value0..value14`. -/
def lruKeys : List (String × PyVal) :=
  (List.range 15).map (fun i => ("key" ++ toString i, PyVal.pyStr ("value" ++ toString i)))

/-- Claim C3: inserting `n > m` distinct keys (no TTLs) into a fresh
`MemoryCache(max_size=m)` leaves exactly the `m` most recently inserted
entries: the cache content is the last `m` pairs in order, each of those
keys `get`s its original value, the oldest `n - m` keys `get` `None`;
concretely with `max_size=10` and `key0..key14`, `key0..key4` are absent and
`key5..key14` return their original values; and overwriting an existing key
occupies one logical slot, not two (the entry count is unchanged). -/
theorem memoryCache_lru_bound (m : Nat) (kvs : List (String × PyVal))
    (now : Nat) (hnd : (kvs.map (fun kv => kv.1)).Nodup)
    (hgt : kvs.length > m) :
    (insertSeq (MemCache.mk0 m) kvs now).data
      = (kvs.drop (kvs.length - m)).map (fun kv => (kv.1, kv.2, (none : Option Nat)))
    ∧ (∀ kv ∈ kvs.drop (kvs.length - m),
        (MemoryCache.get (insertSeq (MemCache.mk0 m) kvs now) kv.1 now).1 = kv.2)
    ∧ (∀ kv ∈ kvs.take (kvs.length - m),
        (MemoryCache.get (insertSeq (MemCache.mk0 m) kvs now) kv.1 now).1 = .pyNone)
    ∧ ((List.range 5).map (fun i =>
        (MemoryCache.get (insertSeq (MemCache.mk0 10) lruKeys 0)
          ("key" ++ toString i) 0).1) = List.replicate 5 .pyNone)
    ∧ (((List.range 15).drop 5).map (fun i =>
        (MemoryCache.get (insertSeq (MemCache.mk0 10) lruKeys 0)
          ("key" ++ toString i) 0).1)
        = ((List.range 15).drop 5).map (fun i => PyVal.pyStr ("value" ++ toString i)))
    ∧ (∀ (c : MemCache) (k : String) (v : PyVal) (n2 : Nat),
        (c.data.map (fun e => e.1)).Nodup → k ∈ c.data.map (fun e => e.1) →
        c.data.length ≤ c.maxSize →
        (MemoryCache.set c k v none n2).data.length = c.data.length) := by
  have hdata : (insertSeq (MemCache.mk0 m) kvs now).data
      = (kvs.drop (kvs.length - m)).map (fun kv => (kv.1, kv.2, (none : Option Nat))) := by
    have hbase := insertSeq_data now kvs (MemCache.mk0 m)
      (by simpa [MemCache.mk0] using hnd) (by simp [MemCache.mk0])
    simp only [MemCache.mk0, List.nil_append, List.length_nil, Nat.zero_add] at hbase
    show (insertSeq (⟨m, []⟩ : MemCache) kvs now).data = _
    rw [hbase, List.map_drop]
  have hndkeys : ∀ d : Nat, ((kvs.drop d).map (fun kv => kv.1)).Nodup := by
    intro d
    rw [List.map_drop]
    exact hnd.sublist (List.drop_sublist _ _)
  refine ⟨hdata, fun kv hmem => ?_, fun kv hmem => ?_, by rfl, by rfl,
    fun c k v n2 hnd2 hmem2 hlen2 => ?_⟩
  · have hfind : MemoryCache.findEntry (insertSeq (MemCache.mk0 m) kvs now) kv.1
        = some (kv.1, kv.2, none) := by
      show ((insertSeq (MemCache.mk0 m) kvs now).data).find? (fun e => e.1 == kv.1) = _
      rw [hdata]
      exact find?_insertedEntries _ kv (hndkeys _) hmem
    simp [MemoryCache.get, hfind, isExpired]
  · have happ : ((kvs.take (kvs.length - m)).map (fun kv => kv.1)
        ++ (kvs.drop (kvs.length - m)).map (fun kv => kv.1))
        = kvs.map (fun kv => kv.1) := by
      rw [← List.map_append, List.take_append_drop]
    have hndsplit : (((kvs.take (kvs.length - m)).map (fun kv => kv.1))
        ++ ((kvs.drop (kvs.length - m)).map (fun kv => kv.1))).Nodup := by
      rw [happ]
      exact hnd
    have hdisj := List.disjoint_of_nodup_append hndsplit
    have hknotin : kv.1 ∉ (kvs.drop (kvs.length - m)).map (fun kv => kv.1) :=
      fun hin => hdisj (List.mem_map_of_mem _ hmem) hin
    have hfind : MemoryCache.findEntry (insertSeq (MemCache.mk0 m) kvs now) kv.1
        = none := by
      show ((insertSeq (MemCache.mk0 m) kvs now).data).find? (fun e => e.1 == kv.1) = none
      rw [hdata]
      apply List.find?_eq_none.mpr
      intro x hx hbx
      obtain ⟨kv', hkv', rfl⟩ := List.mem_map.mp hx
      exact hknotin ((eq_of_beq hbx) ▸ List.mem_map_of_mem _ hkv')
    simp [MemoryCache.get, hfind]
  · have herase := eraseKey_length_mem c.data k hnd2 hmem2
    show (MemoryCache.evictOldest
        (MemoryCache.eraseKey c.data k ++ [(k, v, Option.map _ none)])
        c.maxSize).length = c.data.length
    rw [Option.map_none']
    have hlen3 : (MemoryCache.eraseKey c.data k
        ++ [(k, v, (none : Option Nat))]).length ≤ c.maxSize := by
      simp only [List.length_append, List.length_cons, List.length_nil]
      omega
    rw [evictOldest_noop _ _ hlen3]
    simp only [List.length_append, List.length_cons, List.length_nil]
    omega

/-- `memoryCache_lru_bound` evaluated at the concrete 15-key insertion into
a bound-10 cache. -/
theorem memoryCache_lru_bound_witness :
    (insertSeq (MemCache.mk0 10) lruKeys 0).data
      = (lruKeys.drop (lruKeys.length - 10)).map
          (fun kv => (kv.1, kv.2, (none : Option Nat)))
    ∧ ((List.range 5).map (fun i =>
        (MemoryCache.get (insertSeq (MemCache.mk0 10) lruKeys 0)
          ("key" ++ toString i) 0).1) = List.replicate 5 .pyNone) :=
  ⟨(memoryCache_lru_bound 10 lruKeys 0 (by decide) (by decide)).1,
   (memoryCache_lru_bound 10 lruKeys 0 (by decide) (by decide)).2.2.2.1⟩
